import Mathlib

/-!
Verification development for the AquaMetric swimming-analysis backend.

The definitions below are a shallow embedding of `backend/app` (models.py,
core/preprocessor.py, core/segmenter.py, core/classifier.py,
core/stroke_counter.py, core/pipeline.py).  Python floats are embedded as
exact rationals (`ℚ`) where the code computes with concrete values, and as
real numbers (`ℝ`) where library routines (square roots, FIR design, FFT)
produce irrational intermediates.  `int(...)` is embedded as truncation
toward zero, numpy row arrays `(N, 3)` as `List (α × α × α)`, and raising
as `Except`.
-/

/- Core marks the rational-number operations `@[irreducible]`, which blocks
`decide`-style evaluation of the concrete executions below; they are
perfectly well-founded definitions, so re-opening them for reduction is
sound (the kernel re-checks everything). -/
set_option allowUnsafeReducibility true in
attribute [semireducible] Rat.add Rat.mul Rat.inv Rat.div Rat.sub Rat.neg
  Rat.ofScientific

set_option maxRecDepth 8000

namespace Aqua

/-- Python `int(x)`: truncation toward zero. -/
def pyInt {α : Type*} [LinearOrderedField α] [FloorRing α] (q : α) : ℤ :=
  if q < 0 then ⌈q⌉ else ⌊q⌋

/-- Embeds `StrokeType` from schemas.py. -/
inductive StrokeType
  | freestyle
  | backstroke
  | breaststroke
  | butterfly
  | unknown
  | rest
  | turn
  deriving DecidableEq, Repr

/-- Embeds `np.mean` of a 1-D array. -/
def listMean {α : Type*} [Field α] (l : List α) : α :=
  l.sum / (l.length : α)

/-- Embeds `BasicStrokeCounter._get_stroke_frequency_range`: the per-style
(min_freq, max_freq) table, with the dict `.get` default `(0.3, 1.5)`. -/
def freqRange : StrokeType → ℚ × ℚ
  | .freestyle => (0.6, 1.5)
  | .backstroke => (0.5, 1.2)
  | .breaststroke => (0.3, 0.8)
  | .butterfly => (0.4, 1.0)
  | .unknown => (0.3, 1.5)
  | _ => (0.3, 1.5)

/-- Embeds `BasicStrokeCounter._calculate_min_peak_distance`:
`int((1.0 / max_freq) * sampling_rate)`. -/
def minPeakDistance (fs : ℚ) (st : StrokeType) : ℤ :=
  pyInt ((1 / (freqRange st).2) * fs)

/-- Axis selection of `count_strokes`/`count_strokes_fft`: Y column
(`lap_data[:, 1]`) for freestyle/backstroke, Z column (`lap_data[:, 2]`)
otherwise. -/
def axisSignal {α : Type*} (lap : List (α × α × α)) (st : StrokeType) : List α :=
  if st = .freestyle ∨ st = .backstroke then lap.map (fun r => r.2.1)
  else lap.map (fun r => r.2.2)

/-- The inner `while` of scipy's `_local_maxima_1d`: starting at `j`, skip
forward over samples equal to `v` while before `iMax`; returns the first
index where the plateau ends.  `fuel` bounds the scan (the list length is
always enough). -/
def plateauEnd {α : Type*} [LinearOrderedField α] (x : List α) (iMax : ℕ) (v : α) :
    ℕ → ℕ → ℕ
  | 0, j => j
  | fuel + 1, j => if j < iMax ∧ x.getD j 0 = v then plateauEnd x iMax v fuel (j + 1) else j

/-- Main loop of scipy's `_local_maxima_1d`: scan `i` from 1 to `iMax - 1`;
on a strict ascent, find the plateau end; if the sample after the plateau is
strictly smaller, record the plateau midpoint and resume after the plateau.
`fuel` bounds the number of loop iterations (the list length is enough,
since `i` strictly increases). -/
def lmAux {α : Type*} [LinearOrderedField α] (x : List α) (iMax : ℕ) :
    ℕ → ℕ → List ℕ
  | 0, _ => []
  | fuel + 1, i =>
    if i < iMax then
      if x.getD (i - 1) 0 < x.getD i 0 then
        let ia := plateauEnd x iMax (x.getD i 0) x.length (i + 1)
        if x.getD ia 0 < x.getD i 0 then
          (i + (ia - 1)) / 2 :: lmAux x iMax fuel (ia + 1)
        else lmAux x iMax fuel (i + 1)
      else lmAux x iMax fuel (i + 1)
    else []

/-- scipy `_local_maxima_1d`: indices of the strict local maxima of `x`
(midpoint of a flat plateau), interior samples only. -/
def localMaxima {α : Type*} [LinearOrderedField α] (x : List α) : List ℕ :=
  lmAux x (x.length - 1) x.length 1

/-- Stable insertion into an ascending-by-key list (used to determinise
`np.argsort` on the peak priorities). -/
def insSorted {α : Type*} [LinearOrder α] (key : ℕ → α) (j : ℕ) :
    List ℕ → List ℕ
  | [] => [j]
  | a :: t => if key j ≤ key a then j :: a :: t else a :: insSorted key j t

/-- Stable sort of index list ascending by key. -/
def sortIdx {α : Type*} [LinearOrder α] (key : ℕ → α) (l : List ℕ) : List ℕ :=
  l.foldr (fun j acc => insSorted key j acc) []

/-- One step of scipy's `_select_by_peak_distance`: the highest-priority
surviving peak `j` removes every other peak strictly closer than
`d` samples.  (The two `while` scans of the source stop at the first peak
`d` or more away; since `peaks` is ascending this marks exactly the peaks
with `|peaks[k] - peaks[j]| < d`.) -/
def markRemove (peaks : List ℕ) (d : ℕ) (keep : List Bool) (j : ℕ) : List Bool :=
  (List.range keep.length).map fun k =>
    if k ≠ j ∧ ((peaks.getD k 0 : ℤ) - (peaks.getD j 0 : ℤ)).natAbs < d then false
    else keep.getD k false

/-- scipy `_select_by_peak_distance`: process peaks from highest priority
(sample height) to lowest; a peak already removed does nothing, a surviving
peak removes its too-close neighbours. -/
def selectByDistance {α : Type*} [LinearOrderedField α]
    (x : List α) (peaks : List ℕ) (d : ℕ) : List ℕ :=
  let key : ℕ → α := fun j => x.getD (peaks.getD j 0) 0
  let order := sortIdx key (List.range peaks.length)
  let keep := order.reverse.foldl
    (fun keep j => if keep.getD j false then markRemove peaks d keep j else keep)
    (List.replicate peaks.length true)
  ((peaks.zip keep).filter (fun pk => pk.2)).map (fun pk => pk.1)

/-- scipy `find_peaks(x, distance=d)`: local maxima, thinned by the
minimal-distance condition. -/
def findPeaks {α : Type*} [LinearOrderedField α] (x : List α) (d : ℕ) : List ℕ :=
  selectByDistance x (localMaxima x) d

/-- Embeds `BasicStrokeCounter.count_strokes`: peak detection on the style's axis;
laps under 10 samples count 0; bilateral styles count positive peaks,
symmetric styles the max of positive and negative peak counts. -/
def countStrokes {α : Type*} [LinearOrderedField α] (fs : ℚ)
    (lap : List (α × α × α)) (st : StrokeType) : ℤ :=
  if lap.length < 10 then 0
  else
    let signal0 := axisSignal lap st
    let signal := signal0.map (· - listMean signal0)
    let minDist : ℕ := (max 3 (minPeakDistance fs st)).toNat
    let peaksPos := findPeaks signal minDist
    let peaksNeg := findPeaks (signal.map (fun v => -v)) minDist
    if st = .freestyle ∨ st = .backstroke then (peaksPos.length : ℤ)
    else (max peaksPos.length peaksNeg.length : ℕ)

/-- Number of strictly positive frequency bins of `np.fft.fftfreq(n)`:
bins `1 .. ceil(n/2) - 1` (the bin at `n/2` for even `n` is negative). -/
def numPosFreq (n : ℕ) : ℕ := (n + 1) / 2 - 1

/-- The positive entries of `np.fft.fftfreq(n, d=1/fs)`, in order:
`k * fs / n` for `k = 1 .. numPosFreq n`.  These are exact rationals. -/
def positiveFreqs (n : ℕ) (fs : ℚ) : List ℚ :=
  (List.range' 1 (numPosFreq n)).map fun k : ℕ => (k : ℚ) * fs / n

/-- Magnitudes `|fft(x)|` at the positive frequency bins, for the DFT of the
real signal `x` of length `n` (`|X_k| = sqrt(Re² + Im²)` with
`X_k = Σ_j x_j e^{-2πi k j / n}`). -/
noncomputable def dftMags (n : ℕ) (x : List ℝ) : List ℝ :=
  (List.range' 1 (numPosFreq n)).map fun k : ℕ =>
    Real.sqrt
      (((List.range n).map fun j =>
          x.getD j 0 * Real.cos (2 * Real.pi * k * j / n)).sum ^ 2 +
        ((List.range n).map fun j =>
          x.getD j 0 * Real.sin (2 * Real.pi * k * j / n)).sum ^ 2)

/-- Embeds `np.argmax`: index of the first occurrence of the maximum. -/
noncomputable def argmaxAux : List ℝ → ℕ → ℕ → ℝ → ℕ
  | [], _, bi, _ => bi
  | a :: t, i, bi, bv => if bv < a then argmaxAux t (i + 1) i a else argmaxAux t (i + 1) bi bv

/-- Embeds `np.argmax` over a list of reals (0 on the empty list, as a default). -/
noncomputable def argmaxIdx : List ℝ → ℕ
  | [] => 0
  | a :: t => argmaxAux t 1 0 a

/-- Embeds `BasicStrokeCounter.count_strokes_fft`: under 30 samples fall back to
peak counting; otherwise take the magnitude spectrum of the demeaned axis
signal, keep only bins inside the style's frequency band, return 0 when no
bin lies in the band (`if not np.any(freq_mask): return 0`), else multiply
the dominant frequency by the lap duration and truncate. -/
noncomputable def countStrokesFft (fs : ℚ) (lap : List (ℚ × ℚ × ℚ))
    (st : StrokeType) : ℤ :=
  if lap.length < 30 then countStrokes fs lap st
  else
    let signal0 := axisSignal lap st
    let n := lap.length
    let demeaned := signal0.map (· - listMean signal0)
    let mags := dftMags n (demeaned.map fun q : ℚ => (q : ℝ))
    let freqs := positiveFreqs n fs
    let lo := (freqRange st).1
    let hi := (freqRange st).2
    let mask := freqs.map fun f => decide (lo ≤ f ∧ f ≤ hi)
    if mask.any id = false then 0
    else
      let masked := (mags.zip mask).map fun mb => if mb.2 then mb.1 else 0
      let idx := argmaxIdx masked
      let domFreq := freqs.getD idx 0
      pyInt (domFreq * ((n : ℚ) / fs))

/-- Embeds `HybridStrokeCounter.count_strokes`: a duration-dependent weighted blend
of the peak and FFT estimates, truncated and floored at 0. -/
noncomputable def hybridCount (fs : ℚ) (lap : List (ℚ × ℚ × ℚ))
    (st : StrokeType) : ℤ :=
  let peakCount := countStrokes fs lap st
  let fftCount := countStrokesFft fs lap st
  let duration : ℚ := (lap.length : ℚ) / fs
  let w : ℚ := if duration < 15 then 0.8 else if duration < 30 then 0.6 else 0.4
  max 0 (pyInt (w * peakCount + (1 - w) * fftCount))

/-- Embeds `EnergyClassifier` thresholds: the `.get` defaults of classifier.py. -/
structure Thresholds where
  backstrokeGravityZ : ℚ := 5
  freestyleYRatioThreshold : ℚ := 1.2
  butterflyX : ℚ := 15
  breaststrokeMax : ℚ := 12
  deriving DecidableEq, Repr

/-- Embeds `EnergyClassifier._calculate_energy` for one axis:
`sum(|x - mean|) / N`, the mean absolute deviation. -/
def energy {α : Type*} [LinearOrderedField α] (xs : List α) : α :=
  (xs.map fun v => |v - listMean xs|).sum / (xs.length : α)

/-- Embeds `EnergyClassifier.classify`: under 30 samples return unknown; then the
hierarchical decision: gravity-Z backstroke test, Y-dominant freestyle test,
Z-dominant symmetric-stroke tests, freestyle fallback. -/
def classify {α : Type*} [LinearOrderedField α] (th : Thresholds)
    (lap : List (α × α × α)) : StrokeType :=
  if lap.length < 30 then .unknown
  else
    let ex := energy (lap.map fun r => r.1)
    let ey := energy (lap.map fun r => r.2.1)
    let ez := energy (lap.map fun r => r.2.2)
    if listMean (lap.map fun r => r.2.2) > (th.backstrokeGravityZ : α) then .backstroke
    else if ey > ex * (th.freestyleYRatioThreshold : α) ∧ ey > ez * (th.freestyleYRatioThreshold : α) then
      .freestyle
    else if ez ≥ ey then
      if ex > (th.butterflyX : α) then .butterfly
      else if ex < (th.breaststrokeMax : α) then .breaststroke
      else if ex + ey + ez > 35 then .butterfly else .breaststroke
    else .freestyle

/-- Embeds `SwimLap` from models.py (the uuid/datetime bookkeeping of the session is
embedded as a bare natural id where it matters; it carries no behaviour). -/
structure SwimLap where
  lapNumber : ℕ
  startIdx : ℕ
  endIdx : ℕ
  strokeType : StrokeType
  strokeCount : ℤ := 0
  durationSec : ℚ := 0
  poolLengthM : ℤ := 25
  deriving DecidableEq, Repr

/-- Embeds `SwimLap.swolf`: `int(self.duration_sec + self.stroke_count)`. -/
def SwimLap.swolf (lap : SwimLap) : ℤ :=
  pyInt (lap.durationSec + (lap.strokeCount : ℚ))

/-- Embeds `SwimLap.distance_m`: the lap's pool length. -/
def SwimLap.distanceM (lap : SwimLap) : ℤ := lap.poolLengthM

/-- Embeds `SwimLap.pace_per_100m`: `0.0` when `pool_length_m <= 0`, else
`(duration_sec / pool_length_m) * 100`. -/
def SwimLap.pacePer100m (lap : SwimLap) : ℚ :=
  if lap.poolLengthM ≤ 0 then 0 else lap.durationSec / (lap.poolLengthM : ℚ) * 100

/-- Modelled from the spec's words, for comparison with `SwimLap.swolf`:
"SWOLF = round(duration_sec) + stroke_count". -/
def swolfSpec (lap : SwimLap) : ℤ :=
  round lap.durationSec + lap.strokeCount

/-- Embeds `AnalysisResult` from models.py. -/
structure AnalysisResult where
  sessionId : ℕ
  poolLengthM : ℤ
  laps : List SwimLap := []
  filteredAccel : List (ℝ × ℝ × ℝ) := []
  filteredGyro : List (ℝ × ℝ × ℝ) := []

/-- Embeds `AnalysisResult.total_laps`. -/
def AnalysisResult.totalLaps (r : AnalysisResult) : ℕ := r.laps.length

/-- Embeds `AnalysisResult.total_distance_m`: sum of the per-lap distances. -/
def AnalysisResult.totalDistanceM (r : AnalysisResult) : ℤ :=
  (r.laps.map SwimLap.distanceM).sum

/-- Embeds `AnalysisResult.total_duration_sec`. -/
def AnalysisResult.totalDurationSec (r : AnalysisResult) : ℚ :=
  (r.laps.map SwimLap.durationSec).sum

/-- Embeds `AnalysisResult.avg_swolf`: `0.0` on an empty lap list, else the mean. -/
def AnalysisResult.avgSwolf (r : AnalysisResult) : ℚ :=
  match r.laps with
  | [] => 0
  | _ => ((r.laps.map SwimLap.swolf).sum : ℚ) / (r.laps.length : ℚ)

/-- Embeds `AnalysisResult.avg_pace_per_100m`: `0.0` on an empty lap list, else the
mean. -/
def AnalysisResult.avgPacePer100m (r : AnalysisResult) : ℚ :=
  match r.laps with
  | [] => 0
  | _ => (r.laps.map SwimLap.pacePer100m).sum / (r.laps.length : ℚ)

/-- One step of `AnalysisResult.get_stroke_breakdown`:
`breakdown[stroke] = breakdown.get(stroke, 0) + 1` on an insertion-ordered
dict, embedded as an association list (a key first seen is appended). -/
def bumpBreakdown : List (StrokeType × ℕ) → StrokeType → List (StrokeType × ℕ)
  | [], st => [(st, 1)]
  | (k, v) :: t, st =>
    if k = st then (k, v + 1) :: t else (k, v) :: bumpBreakdown t st

/-- Embeds `AnalysisResult.get_stroke_breakdown`: counts per stroke type, keyed in
first-encountered order. -/
def strokeBreakdown (laps : List SwimLap) : List (StrokeType × ℕ) :=
  laps.foldl (fun bd lap => bumpBreakdown bd lap.strokeType) []

/-- Python `max(d, key=d.get)`: walk the keys in insertion order keeping the
first entry whose count is a strict maximum. -/
def maxCountKey : List (StrokeType × ℕ) → StrokeType × ℕ → StrokeType × ℕ
  | [], best => best
  | (k, v) :: t, best =>
    if best.2 < v then maxCountKey t (k, v) else maxCountKey t best

/-- Embeds `AnalysisResult.primary_stroke`: unknown on an empty breakdown, else the
max-count key (ties to the earlier key). -/
def AnalysisResult.primaryStroke (r : AnalysisResult) : StrokeType :=
  match strokeBreakdown r.laps with
  | [] => .unknown
  | kv :: t => (maxCountKey t kv).1

/-- The order in which distinct stroke types first occur in a lap list (the
insertion order of the Python breakdown dict's keys). -/
def firstSeenOrder (sts : List StrokeType) : List StrokeType :=
  sts.foldl (fun acc st => if st ∈ acc then acc else acc ++ [st]) []

/-- Embeds `PitchRollSegmenter._calculate_null_probability` for one sample:
`1 / (1 + |sqrt(ax² + ay² + az²) - 9.8| / 2)`. -/
noncomputable def nullProb (row : ℝ × ℝ × ℝ) : ℝ :=
  1 / (1 + |Real.sqrt (row.1 ^ 2 + row.2.1 ^ 2 + row.2.2 ^ 2) - 9.8| / 2)

/-- Embeds the test `null_prob < 0.5`, the per-sample "swimming" mask of
`PitchRollSegmenter.segment`. -/
noncomputable def swimmingMask (accel : List (ℝ × ℝ × ℝ)) : List Bool :=
  accel.map fun r => decide (nullProb r < 0.5)

/-- The window slice `mask[max(0, i - size) : min(len(mask), i + size + 1)]`
of the morphological loops, with Python's slice semantics (a stop that is
still negative after the `min` indexes from the end). -/
def sliceWindow (mask : List Bool) (i : ℕ) (size : ℤ) : List Bool :=
  let start : ℕ := ((i : ℤ) - size).toNat
  let stop : ℤ := min (mask.length : ℤ) ((i : ℤ) + size + 1)
  let stopEff : ℕ := if stop < 0 then ((mask.length : ℤ) + stop).toNat
    else min stop.toNat mask.length
  (mask.drop start).take (stopEff - start)

/-- Embeds `PitchRollSegmenter._morphological_close`: dilation (any neighbour in the
window sets the sample) followed by erosion (a window that is not all set
clears the sample, reading the dilated mask). -/
def morphClose (mask : List Bool) (size : ℤ) : List Bool :=
  let dilated := (List.range mask.length).map fun i =>
    if (sliceWindow mask i size).any id then true else mask.getD i false
  (List.range dilated.length).map fun i =>
    if ¬ (sliceWindow dilated i size).all id then false else dilated.getD i false

/-- Embeds `PitchRollSegmenter._morphological_open`: erosion then dilation, reading
the eroded mask. -/
def morphOpen (mask : List Bool) (size : ℤ) : List Bool :=
  let eroded := (List.range mask.length).map fun i =>
    if ¬ (sliceWindow mask i size).all id then false else mask.getD i false
  (List.range eroded.length).map fun i =>
    if (sliceWindow eroded i size).any id then true else eroded.getD i false

/-- The state loop of `PitchRollSegmenter._find_segments`: `i` is the index
of the head of the remaining mask, the `Option` holds the open segment's
start (Python's `in_segment`/`start_idx` pair). -/
def findSegAux : List Bool → ℕ → Option ℕ → List (ℕ × ℕ)
  | [], _, none => []
  | [], i, some s => [(s, i)]
  | b :: t, i, none =>
    if b then findSegAux t (i + 1) (some i) else findSegAux t (i + 1) none
  | b :: t, i, some s =>
    if b then findSegAux t (i + 1) (some s) else (s, i) :: findSegAux t (i + 1) none

/-- Embeds `PitchRollSegmenter._find_segments`: maximal contiguous runs of `true`
as half-open `(start, end)` ranges, a run reaching the end closed at the
mask's length. -/
def findSegments (mask : List Bool) : List (ℕ × ℕ) := findSegAux mask 0 none

/-- Embeds `PitchRollSegmenter._filter_short_segments`: keep ranges with
`(e - s) >= min_samples`. -/
def filterShortSegments (segs : List (ℕ × ℕ)) (minSamples : ℤ) : List (ℕ × ℕ) :=
  segs.filter fun se => minSamples ≤ (se.2 : ℤ) - (se.1 : ℤ)

/-- Embeds `PitchRollSegmenter.segment`: threshold the null probability, close with
an `int(3 * fs)` window, open with an `int(2 * fs)` window, extract runs,
drop runs shorter than `int(min_lap_duration_sec * fs)` samples. -/
noncomputable def segment (accel : List (ℝ × ℝ × ℝ)) (fs : ℚ) (minLapSec : ℚ) :
    List (ℕ × ℕ) :=
  let mask := swimmingMask accel
  let closeSize := pyInt (3 * fs)
  let openSize := pyInt (2 * fs)
  let closed := morphClose mask closeSize
  let opened := morphOpen closed openSize
  let segs := findSegments opened
  filterShortSegments segs (pyInt (minLapSec * fs))

/-- Embeds `np.sinc`-style normalized sinc used by scipy's `firwin`. -/
noncomputable def npSinc (x : ℝ) : ℝ :=
  if x = 0 then 1 else Real.sin (Real.pi * x) / (Real.pi * x)

/-- scipy `firwin(numtaps, cutoff, window='hamming')` (cutoff in Nyquist
units): Hamming-windowed ideal-lowpass taps, scaled to unit gain at zero
frequency. -/
noncomputable def firwinTaps (numtaps : ℕ) (c : ℝ) : List ℝ :=
  let raw := (List.range numtaps).map fun k : ℕ =>
    let m : ℝ := (k : ℝ) - ((numtaps : ℝ) - 1) / 2
    (0.54 - 0.46 * Real.cos (2 * Real.pi * k / ((numtaps : ℝ) - 1))) * (c * npSinc (c * m))
  let s := raw.sum
  raw.map (· / s)

/-- Embeds `lfilter(b, [1.0], x, zi = zi * x0)` for an FIR filter: because the
steady-state initial conditions `lfilter_zi(b, 1)` scaled by `x0` are exactly
the state left by an infinite constant input `x0`, the output is the
convolution of `b` with `x` extended by `x0` into the past. -/
noncomputable def lfilterInit (b : List ℝ) (x0 : ℝ) (x : List ℝ) : List ℝ :=
  (List.range x.length).map fun i : ℕ =>
    ((List.range b.length).map fun k : ℕ =>
      b.getD k 0 * (if k ≤ i then x.getD (i - k) 0 else x0)).sum

/-- scipy `odd_ext(x, p)`: odd reflection of `p` samples at each end. -/
noncomputable def oddExt (p : ℕ) (x : List ℝ) : List ℝ :=
  let x0 := x.getD 0 0
  let xl := x.getD (x.length - 1) 0
  ((List.range p).map fun j => 2 * x0 - x.getD (p - j) 0) ++ x ++
    ((List.range p).map fun j => 2 * xl - x.getD (x.length - 2 - j) 0)

/-- The numeric core of scipy `filtfilt(b, 1.0, x)` (method `pad`,
`padtype='odd'`, default `padlen`): extend, filter forward with
steady-state initial conditions, reverse, filter again, reverse, strip the
extension. -/
noncomputable def filtfiltCore (b : List ℝ) (p : ℕ) (x : List ℝ) : List ℝ :=
  let ext := oddExt p x
  let y1 := lfilterInit b (ext.getD 0 0) ext
  let r1 := y1.reverse
  let y2 := lfilterInit b (r1.getD 0 0) r1
  (y2.reverse.drop p).take x.length

/-- scipy `filtfilt(b, 1.0, x)`: with the default `padlen = 3 * max(len(a),
len(b))`, an input of length `<= padlen` raises
`ValueError("The length of the input vector x must be greater than padlen")`. -/
noncomputable def filtfilt (b : List ℝ) (x : List ℝ) : Except String (List ℝ) :=
  let padlen := 3 * max 1 b.length
  if x.length ≤ padlen then
    .error "The length of the input vector x must be greater than padlen."
  else .ok (filtfiltCore b padlen x)

/-- Embeds `SwimBITFilter.process` on a 1-D array: inputs of length
`<= order + 1` are returned unchanged, otherwise the cached Hamming FIR
taps (normalized cutoff clamped into `(0.01, 0.99)`) are applied with
`filtfilt`. -/
noncomputable def process1 (order : ℕ) (cutoffHz fs : ℚ) (data : List ℝ) :
    Except String (List ℝ) :=
  if data.length ≤ order + 1 then .ok data
  else
    let normalized : ℚ := min (max (cutoffHz / (0.5 * fs)) 0.01) 0.99
    filtfilt (firwinTaps (order + 1) (normalized : ℝ)) data

/-- Embeds `SwimBITFilter.process` on an `(N, 3)` array: the same guard and taps,
`filtfilt` applied along axis 0, i.e. to each column. -/
noncomputable def process3 (order : ℕ) (cutoffHz fs : ℚ)
    (data : List (ℝ × ℝ × ℝ)) : Except String (List (ℝ × ℝ × ℝ)) :=
  if data.length ≤ order + 1 then .ok data
  else
    let normalized : ℚ := min (max (cutoffHz / (0.5 * fs)) 0.01) 0.99
    let taps := firwinTaps (order + 1) (normalized : ℝ)
    do
      let c1 ← filtfilt taps (data.map fun r => r.1)
      let c2 ← filtfilt taps (data.map fun r => r.2.1)
      let c3 ← filtfilt taps (data.map fun r => r.2.2)
      return c1.zip (c2.zip c3)

/-- Embeds `SensorData` from models.py, as the pure values the pipeline reads. -/
structure SensorData where
  timestamps : List ℝ := []
  accel : List (ℝ × ℝ × ℝ) := []
  gyro : List (ℝ × ℝ × ℝ) := []
  mag : Option (List (ℝ × ℝ × ℝ)) := none
  pressure : Option (List ℝ) := none

/-- Embeds `SessionData` from models.py (uuid/datetime metadata carried as plain
numbers; it has no behaviour). -/
structure SessionData where
  sessionId : ℕ
  poolLengthM : ℤ
  sensorData : SensorData

/-- The construction-time configuration of `AnalysisPipeline` and its
default components: filter order/cutoff (defaults 48 and 3 Hz), sampling
rate (default 30), the segmenter's `min_lap_duration_sec` (`.get` default
10) and the classifier thresholds. -/
structure PipeParams where
  order : ℕ := 48
  cutoffHz : ℚ := 3
  samplingRate : ℚ := 30
  minLapSec : ℚ := 10
  thresholds : Thresholds := {}

/-- Python list/array slice `l[s:e]` for `0 ≤ s`. -/
def listSlice {α : Type*} (l : List α) (s e : ℕ) : List α :=
  (l.drop s).take (e - s)

/-- Embeds `AnalysisPipeline._create_lap`: classify the lap's filtered
acceleration, count strokes with the classified style, duration is
`(end_idx - start_idx) / sampling_rate`. -/
noncomputable def createLap (P : PipeParams) (num s e : ℕ)
    (lapAccel : List (ℝ × ℝ × ℝ)) (pool : ℤ) : SwimLap :=
  let st := classify P.thresholds lapAccel
  { lapNumber := num, startIdx := s, endIdx := e,
    strokeType := st,
    strokeCount := countStrokes P.samplingRate lapAccel st,
    durationSec := ((e - s : ℕ) : ℚ) / P.samplingRate,
    poolLengthM := pool }

/-- Embeds `AnalysisPipeline.analyze`: filter both channels, segment the filtered
acceleration, build one `SwimLap` per range (1-based, in order), assemble
the result.  The only raising operation on well-typed `(N, 3)` inputs is
`filtfilt`'s length validation, so the embedding's `Except` reflects
exactly the exceptions `analyze` can propagate; there is no input
validation of its own. -/
noncomputable def analyze (P : PipeParams) (session : SessionData) :
    Except String AnalysisResult := do
  let fa ← process3 P.order P.cutoffHz P.samplingRate session.sensorData.accel
  let fg ← process3 P.order P.cutoffHz P.samplingRate session.sensorData.gyro
  let segs := segment fa P.samplingRate P.minLapSec
  let laps := segs.enum.map fun ise =>
    createLap P (ise.1 + 1) ise.2.1 ise.2.2 (listSlice fa ise.2.1 ise.2.2)
      session.poolLengthM
  return { sessionId := session.sessionId, poolLengthM := session.poolLengthM,
           laps := laps, filteredAccel := fa, filteredGyro := fg }

/-- A numpy array object: a buffer number in a store, an offset and a
length.  numpy basic slicing returns a view — a new `NDView` into the same
buffer — never a copy. -/
structure NDView where
  buf : ℕ
  off : ℕ
  len : ℕ
  deriving DecidableEq, Repr

/-- Read element `i` of a view out of the store of buffers. -/
def readV {α : Type*} [Inhabited α] (σ : List (List α)) (v : NDView) (i : ℕ) : α :=
  (σ.getD v.buf []).getD (v.off + i) default

/-- Write element `i` of a view (`arr[i] = a`): mutates the underlying
buffer in the store. -/
def writeV {α : Type*} (σ : List (List α)) (v : NDView) (i : ℕ) (a : α) :
    List (List α) :=
  σ.set v.buf ((σ.getD v.buf []).set (v.off + i) a)

/-- numpy basic slice `arr[s:e]`: a view of the same buffer at a shifted
offset. -/
def sliceV (v : NDView) (s e : ℕ) : NDView := ⟨v.buf, v.off + s, e - s⟩

/-- Embeds `SensorData` as it is held at runtime: numpy array objects (views into
buffers), used to settle the aliasing behaviour of `SensorData.slice`. -/
structure SensorDataV where
  timestamps : NDView
  accel : NDView
  gyro : NDView
  mag : Option NDView := none
  pressure : Option NDView := none
  deriving DecidableEq, Repr

/-- Embeds `SensorData.slice`: a new `SensorData` whose arrays are
`self.xs[start_idx:end_idx]` — numpy views of the source's buffers. -/
def SensorDataV.slice (sd : SensorDataV) (s e : ℕ) : SensorDataV :=
  { timestamps := sliceV sd.timestamps s e,
    accel := sliceV sd.accel s e,
    gyro := sliceV sd.gyro s e,
    mag := sd.mag.map fun v => sliceV v s e,
    pressure := sd.pressure.map fun v => sliceV v s e }

/-! ## Claim theorems -/

/-- The lap refuting C1's SWOLF formula: a non-integral duration whose
fractional part is at least one half. -/
def lapRound : SwimLap :=
  { lapNumber := 1, startIdx := 0, endIdx := 621, strokeType := .freestyle,
    strokeCount := 18, durationSec := 20.7, poolLengthM := 25 }

/-- C1 counterexample: for duration 20.7 s and 18 strokes the code computes
`int(20.7 + 18) = 38`, while the claimed formula
`round(duration) + strokes` gives `21 + 18 = 39`. -/
theorem C1_counterexample :
    lapRound.swolf = 38 ∧ swolfSpec lapRound = 39 ∧ lapRound.swolf ≠ swolfSpec lapRound := by
  decide

/-- C1 (amended): SWOLF is `int(duration_sec + stroke_count)`, which for
nonnegative duration and stroke count is `⌊duration⌋ + strokes` (truncation,
not rounding); pace is `duration / pool_length * 100` for a positive pool
length and `0.0` otherwise. -/
theorem C1_swolf_pace (lap : SwimLap)
    (hd : 0 ≤ lap.durationSec) (hc : 0 ≤ lap.strokeCount) :
    lap.swolf = ⌊lap.durationSec⌋ + lap.strokeCount ∧
    (0 < lap.poolLengthM →
      lap.pacePer100m = lap.durationSec / (lap.poolLengthM : ℚ) * 100) ∧
    (lap.poolLengthM ≤ 0 → lap.pacePer100m = 0) := by
  refine ⟨?_, fun hp => ?_, fun hp => ?_⟩
  · have h0 : (0 : ℚ) ≤ lap.durationSec + (lap.strokeCount : ℚ) := by positivity
    rw [SwimLap.swolf, pyInt, if_neg (not_lt.2 h0), Int.floor_add_int]
  · rw [SwimLap.pacePer100m, if_neg (not_le.2 hp)]
  · rw [SwimLap.pacePer100m, if_pos hp]

/-- The concrete lap of the claim's example: 20.0 s, 18 strokes, 25 m pool. -/
def lapExample : SwimLap :=
  { lapNumber := 1, startIdx := 0, endIdx := 600, strokeType := .freestyle,
    strokeCount := 18, durationSec := 20, poolLengthM := 25 }

/-- C1 witness: the amended theorem instantiated at the claim's own example
yields SWOLF 38 and pace 80.0. -/
theorem C1_witness : lapExample.swolf = 38 ∧ lapExample.pacePer100m = 80 := by
  have h := C1_swolf_pace lapExample (by decide) (by decide)
  exact ⟨h.1.trans (by decide), (h.2.1 (by decide)).trans (by decide)⟩

/-- C4 (amended): `SensorData.slice` returns a new instance, but its arrays
are numpy views of the source's buffers at a shifted offset: reads through
the slice read the source's buffer, and a write through the slice is the
same store update as a write through the source. -/
theorem C4_slice_is_view (sd : SensorDataV) (s e i : ℕ)
    (σ : List (List (ℚ × ℚ × ℚ))) (q : ℚ × ℚ × ℚ) :
    (sd.slice s e).accel.buf = sd.accel.buf ∧
    readV σ ((sd.slice s e).accel) i = readV σ sd.accel (s + i) ∧
    writeV σ ((sd.slice s e).accel) i q = writeV σ sd.accel (s + i) q := by
  refine ⟨rfl, ?_, ?_⟩
  · simp [SensorDataV.slice, sliceV, readV, Nat.add_assoc]
  · simp [SensorDataV.slice, sliceV, writeV, Nat.add_assoc]

/-- A store with one 3-row acceleration buffer. -/
def storeC4 : List (List (ℚ × ℚ × ℚ)) := [[(1, 1, 1), (2, 2, 2), (3, 3, 3)]]

/-- Sensor data whose arrays view that buffer. -/
def sdC4 : SensorDataV :=
  { timestamps := ⟨0, 0, 3⟩, accel := ⟨0, 0, 3⟩, gyro := ⟨0, 0, 3⟩ }

/-- C4 counterexample: writing through `slice(1, 3)`'s acceleration array
changes what the source's acceleration array reads — the slice shares
mutable state with the source, so it is a view, not a copy. -/
theorem C4_counterexample :
    readV (writeV storeC4 ((sdC4.slice 1 3).accel) 0 (9, 9, 9)) sdC4.accel 1 ≠
      readV storeC4 sdC4.accel 1 := by decide

/-- C10: on an empty lap list the averages are 0.0 and the primary stroke is
unknown (the divisions are behind emptiness guards). -/
theorem C10_empty_result (r : AnalysisResult) (h : r.laps = []) :
    r.avgSwolf = 0 ∧ r.avgPacePer100m = 0 ∧ r.primaryStroke = .unknown := by
  refine ⟨?_, ?_, ?_⟩ <;>
    simp [AnalysisResult.avgSwolf, AnalysisResult.avgPacePer100m,
      AnalysisResult.primaryStroke, strokeBreakdown, h]

/-- An analysis result with no laps. -/
def emptyResult : AnalysisResult := { sessionId := 0, poolLengthM := 25 }

/-- C10 witness: the theorem applied to a concrete empty result. -/
theorem C10_witness :
    emptyResult.avgSwolf = 0 ∧ emptyResult.avgPacePer100m = 0 ∧
      emptyResult.primaryStroke = .unknown :=
  C10_empty_result emptyResult rfl

/-- C8: under 30 samples `classify` returns unknown; at 30 or more samples,
a mean Z above the gravity threshold returns backstroke no matter what the
other axes hold (the gravity test is the first decision). -/
theorem C8_classify_gravity (th : Thresholds) (lap : List (ℚ × ℚ × ℚ)) :
    (lap.length < 30 → classify th lap = .unknown) ∧
    (30 ≤ lap.length →
      (th.backstrokeGravityZ : ℚ) < listMean (lap.map fun r => r.2.2) →
      classify th lap = .backstroke) := by
  constructor
  · intro h
    rw [classify, if_pos h]
  · intro h30 hz
    rw [classify, if_neg (not_lt.2 h30)]
    simp only [Rat.cast_id]
    rw [if_pos hz]

/-- Thirty samples of `(0, 0, 10)`: mean Z is 10, above the default threshold 5;
and a 10-sample lap, too short to classify. -/
def lapGravity : List (ℚ × ℚ × ℚ) := (List.range 30).map fun _ => (0, 0, 10)

/-- Too-short lap for the C8 witness. -/
def lapShort : List (ℚ × ℚ × ℚ) := (List.range 10).map fun _ => (0, 7, 0)

/-- C8 witness: the theorem applied at concrete inputs: the short lap is
unknown, the gravity-dominated lap is backstroke. -/
theorem C8_witness :
    classify {} lapShort = .unknown ∧ classify {} lapGravity = .backstroke :=
  ⟨(C8_classify_gravity {} lapShort).1 (by decide),
    (C8_classify_gravity {} lapGravity).2 (by decide) (by decide)⟩

/-- C2 (code slip): with the default order 48 the guard passes any input
longer than 49 samples to `filtfilt`, whose default `padlen` is
`3 * 49 = 147`; an input of 100 samples therefore raises instead of
returning a same-shape array. -/
theorem C2_filter_raises_between_50_and_147 :
    process1 48 3 30 (List.replicate 100 (0 : ℝ)) =
      Except.error "The length of the input vector x must be greater than padlen." := by
  rfl

/-- C3 (amended): the spectral counter returns the peak method's count for
laps under 30 samples, but when no FFT bin lies in the style's band it
returns 0, not the peak count; both paths are ordinary returns, not
exceptions. -/
theorem C3_fft_fallback (fs : ℚ) (lap : List (ℚ × ℚ × ℚ)) (st : StrokeType) :
    (lap.length < 30 → countStrokesFft fs lap st = countStrokes fs lap st) ∧
    (30 ≤ lap.length →
      (∀ f ∈ positiveFreqs lap.length fs,
        ¬ ((freqRange st).1 ≤ f ∧ f ≤ (freqRange st).2)) →
      countStrokesFft fs lap st = 0) := by
  constructor
  · intro h
    rw [countStrokesFft, if_pos h]
  · intro h30 hband
    have h30' : ¬ lap.length < 30 := not_lt.2 h30
    have hmask : ((positiveFreqs lap.length fs).map fun f =>
        decide ((freqRange st).1 ≤ f ∧ f ≤ (freqRange st).2)).any id = false := by
      rw [List.any_eq_false]
      intro b hb
      rw [List.mem_map] at hb
      obtain ⟨f, hf, rfl⟩ := hb
      simpa using hband f hf
    simp only [countStrokesFft, h30', if_false, hmask]
    simp [hmask]

/-- A 5-sample lap, below the 30-sample FFT minimum. -/
def lapTiny : List (ℚ × ℚ × ℚ) := (List.range 5).map fun _ => (0, 1, 2)

/-- C3 witness: the fallback equation of the theorem at a concrete short
lap. -/
theorem C3_witness : countStrokesFft 30 lapTiny .unknown = countStrokes 30 lapTiny .unknown :=
  (C3_fft_fallback 30 lapTiny .unknown).1 (by decide)

/-- Thirty samples at 100 Hz: every FFT bin is at `k * 100/30 ≥ 3.33` Hz, above
every style's band, and the Y axis has one clear peak. -/
def lapBand : List (ℚ × ℚ × ℚ) := (List.range 30).map fun i => (0, if i = 5 then 1 else 0, 0)

/-- C3 counterexample: a lap of 30 samples whose frequency band holds no bin
(no energy in the band); the peak method counts 1 stroke but
`count_strokes_fft` returns 0, not the peak method's count. -/
theorem C3_counterexample :
    30 ≤ lapBand.length ∧
    (∀ f ∈ positiveFreqs lapBand.length 100,
      ¬ ((freqRange .freestyle).1 ≤ f ∧ f ≤ (freqRange .freestyle).2)) ∧
    countStrokesFft 100 lapBand .freestyle = 0 ∧
    countStrokes 100 lapBand .freestyle = 1 ∧
    countStrokesFft 100 lapBand .freestyle ≠ countStrokes 100 lapBand .freestyle := by
  decide

/-- Embeds `process` on a 2-D array is the identity when the input has at most
`order + 1` rows. -/
theorem process3_identity (order : ℕ) (c fs : ℚ) (data : List (ℝ × ℝ × ℝ))
    (h : data.length ≤ order + 1) : process3 order c fs data = Except.ok data := by
  rw [process3, if_pos h]

/-- Embeds `analyze` succeeds whenever the filter accepts both channel lengths —
whether or not the channels have equal lengths: there is no cross-channel
validation anywhere in the call. -/
theorem analyze_ok_of_short (P : PipeParams) (s : SessionData)
    (ha : s.sensorData.accel.length ≤ P.order + 1)
    (hg : s.sensorData.gyro.length ≤ P.order + 1) :
    ∃ r, analyze P s = Except.ok r := by
  rw [analyze, process3_identity _ _ _ _ ha, process3_identity _ _ _ _ hg]
  exact ⟨_, rfl⟩

/-- C5 (amended): `analyze` has no fail-fast input validation: any session
whose channels individually pass the filter's length guard is analyzed to a
result, even when the accelerometer and gyroscope lengths disagree; a
malformed shape can only surface as an error from inside a stage. -/
theorem C5_no_failfast_validation (P : PipeParams) (s : SessionData)
    (ha : s.sensorData.accel.length ≤ P.order + 1)
    (hg : s.sensorData.gyro.length ≤ P.order + 1) :
    ∃ r, analyze P s = Except.ok r :=
  analyze_ok_of_short P s ha hg

/-- A session with mismatched channel lengths: 10 accelerometer rows but
only 5 gyroscope rows. -/
def sensorMismatched : SensorData :=
  { timestamps := [],
    accel := List.replicate 10 ((0 : ℝ), 0, 0),
    gyro := List.replicate 5 ((0 : ℝ), 0, 0) }

/-- The session wrapping `sensorMismatched`. -/
def sessionMismatched : SessionData :=
  { sessionId := 0, poolLengthM := 25, sensorData := sensorMismatched }

/-- C5 witness: the theorem applied to the concrete mismatched session. -/
theorem C5_witness : ∃ r, analyze {} sessionMismatched = Except.ok r :=
  C5_no_failfast_validation {} sessionMismatched (by decide) (by decide)

/-- C5 counterexample: `analyze` on the session with mismatched channel
lengths returns a result — it does not fail before the stages run, nor at
all. -/
theorem C5_counterexample :
    (analyze {} sessionMismatched).isOk = true ∧
    sessionMismatched.sensorData.accel.length ≠
      sessionMismatched.sensorData.gyro.length := by
  constructor
  · obtain ⟨r, hr⟩ := analyze_ok_of_short {} sessionMismatched (by decide) (by decide)
    rw [hr]
    rfl
  · decide

/-- Well-formedness of a segment list: every range has start at least `lo`,
start strictly below end, end at most `N`, and each range starts no earlier
than the previous range's end. -/
def SegOK (lo N : ℕ) : List (ℕ × ℕ) → Prop
  | [] => True
  | se :: t => lo ≤ se.1 ∧ se.1 < se.2 ∧ se.2 ≤ N ∧ SegOK se.2 N t

theorem segOK_mono {lo' lo N : ℕ} {l : List (ℕ × ℕ)} (h : lo' ≤ lo)
    (hl : SegOK lo N l) : SegOK lo' N l := by
  cases l with
  | nil => trivial
  | cons se t => exact ⟨h.trans hl.1, hl.2.1, hl.2.2.1, hl.2.2.2⟩

theorem segOK_mem {lo N : ℕ} {l : List (ℕ × ℕ)} (hl : SegOK lo N l) :
    ∀ se ∈ l, se.1 < se.2 ∧ se.2 ≤ N := by
  induction l generalizing lo with
  | nil => intro se h; cases h
  | cons a t ih =>
    intro se h
    rcases List.mem_cons.1 h with rfl | h
    · exact ⟨hl.2.1, hl.2.2.1⟩
    · exact ih hl.2.2.2 se h

theorem segOK_chain {lo N : ℕ} {l : List (ℕ × ℕ)} (hl : SegOK lo N l) :
    List.Chain' (fun a b => a.2 ≤ b.1) l := by
  induction l generalizing lo with
  | nil => exact List.chain'_nil
  | cons a t ih =>
    cases t with
    | nil => simp
    | cons b t' =>
      exact List.Chain'.cons hl.2.2.2.1 (ih hl.2.2.2)

theorem segOK_filter {lo N : ℕ} {l : List (ℕ × ℕ)} (p : ℕ × ℕ → Bool)
    (hl : SegOK lo N l) : SegOK lo N (l.filter p) := by
  induction l generalizing lo with
  | nil => trivial
  | cons a t ih =>
    rw [List.filter_cons]
    by_cases hp : p a
    · rw [if_pos hp]
      exact ⟨hl.1, hl.2.1, hl.2.2.1, ih hl.2.2.2⟩
    · rw [if_neg hp]
      exact segOK_mono (hl.1.trans hl.2.1.le) (ih hl.2.2.2)

/-- Invariant of the `_find_segments` loop: from index `i` with the open
segment's start in `st` (always strictly before `i`), the produced ranges
are well-formed between the open start (or `i`) and the end of the mask. -/
theorem findSegAux_ok : ∀ (t : List Bool) (i : ℕ) (st : Option ℕ),
    (∀ s, st = some s → s < i) →
    SegOK (st.getD i) (i + t.length) (findSegAux t i st) := by
  intro t
  induction t with
  | nil =>
    intro i st hst
    cases st with
    | none => trivial
    | some s => exact ⟨le_refl s, hst s rfl, Nat.le_refl i, trivial⟩
  | cons b t' ih =>
    intro i st hst
    cases st with
    | none =>
      rw [findSegAux]
      by_cases hb : b = true
      · rw [if_pos hb]
        have h := ih (i + 1) (some i) (by intro s hs; cases hs; omega)
        simp only [Option.getD] at h ⊢
        have hN : i + 1 + t'.length = i + (t'.length + 1) := by omega
        rw [hN] at h
        simpa using h
      · rw [if_neg hb]
        have h := ih (i + 1) none (by intro s hs; cases hs)
        simp only [Option.getD] at h ⊢
        have hN : i + 1 + t'.length = i + (t'.length + 1) := by omega
        rw [hN] at h
        exact segOK_mono (Nat.le_succ i) h
    | some s =>
      rw [findSegAux]
      by_cases hb : b = true
      · rw [if_pos hb]
        have h := ih (i + 1) (some s) (by intro s' hs'; cases hs'; exact (hst s rfl).trans (Nat.lt_succ_self i))
        simp only [Option.getD] at h ⊢
        have hN : i + 1 + t'.length = i + (t'.length + 1) := by omega
        rw [hN] at h
        exact h
      · rw [if_neg hb]
        have h := ih (i + 1) none (by intro s' hs'; cases hs')
        simp only [Option.getD] at h ⊢
        have hN : i + 1 + t'.length = i + (t'.length + 1) := by omega
        rw [hN] at h
        exact ⟨le_refl s, hst s rfl, by omega, segOK_mono (Nat.le_succ i) h⟩

theorem findSegments_ok (mask : List Bool) :
    SegOK 0 mask.length (findSegments mask) := by
  have h := findSegAux_ok mask 0 none (by intro s hs; cases hs)
  simpa [findSegments] using h

theorem morph_lengths (m : List Bool) (c o : ℤ) :
    (morphOpen (morphClose m c) o).length = m.length := by
  simp [morphOpen, morphClose]

/-- C6: every lap list produced by `segment` consists of ranges with
`start < end ≤ N` and length at least `int(min_lap_duration_sec * fs)`
samples, listed in ascending order without overlap. -/
theorem C6_segment_invariants (accel : List (ℝ × ℝ × ℝ)) (fs minLap : ℚ) :
    (∀ se ∈ segment accel fs minLap,
      se.1 < se.2 ∧ se.2 ≤ accel.length ∧
        pyInt (minLap * fs) ≤ (se.2 : ℤ) - (se.1 : ℤ)) ∧
    List.Chain' (fun a b => a.2 ≤ b.1) (segment accel fs minLap) := by
  have hmask : (morphOpen (morphClose (swimmingMask accel) (pyInt (3 * fs)))
      (pyInt (2 * fs))).length = accel.length := by
    rw [morph_lengths]
    simp [swimmingMask]
  have hok : SegOK 0 accel.length
      (findSegments (morphOpen (morphClose (swimmingMask accel) (pyInt (3 * fs)))
        (pyInt (2 * fs)))) := by
    have h := findSegments_ok
      (morphOpen (morphClose (swimmingMask accel) (pyInt (3 * fs))) (pyInt (2 * fs)))
    rwa [hmask] at h
  have hseg : segment accel fs minLap =
      filterShortSegments
        (findSegments (morphOpen (morphClose (swimmingMask accel) (pyInt (3 * fs)))
          (pyInt (2 * fs))))
        (pyInt (minLap * fs)) := rfl
  have hfil : SegOK 0 accel.length (segment accel fs minLap) := by
    rw [hseg, filterShortSegments]
    exact segOK_filter _ hok
  refine ⟨?_, segOK_chain hfil⟩
  intro se hse
  have hm := segOK_mem hfil se hse
  refine ⟨hm.1, hm.2, ?_⟩
  rw [hseg, filterShortSegments] at hse
  have := List.of_mem_filter hse
  simpa using this

theorem sum_distance (laps : List SwimLap) (p : ℤ)
    (hp : ∀ lap ∈ laps, lap.poolLengthM = p) :
    (laps.map SwimLap.distanceM).sum = p * (laps.length : ℤ) := by
  induction laps with
  | nil => simp
  | cons a t ih =>
    simp only [List.map_cons, List.sum_cons, List.length_cons]
    rw [ih fun lap h => hp lap (List.mem_cons_of_mem a h),
      SwimLap.distanceM, hp a (List.mem_cons_self a t)]
    push_cast
    ring

/-- Embeds `max(d, key=d.get)` starting from `best` finds the first entry of
`best :: t` whose count no later entry exceeds and every earlier entry is
strictly below — Python `max` keeps the first of equals. -/
theorem maxCountKey_spec (t : List (StrokeType × ℕ)) (best : StrokeType × ℕ) :
    ∃ i, i < (best :: t).length ∧
      maxCountKey t best = (best :: t).getD i (.unknown, 0) ∧
      (∀ j, j < (best :: t).length →
        ((best :: t).getD j (.unknown, 0)).2 ≤ ((best :: t).getD i (.unknown, 0)).2) ∧
      (∀ j, j < i →
        ((best :: t).getD j (.unknown, 0)).2 < ((best :: t).getD i (.unknown, 0)).2) := by
  induction t generalizing best with
  | nil =>
    refine ⟨0, by simp, by simp [maxCountKey], ?_, by omega⟩
    intro j hj
    have hj0 : j = 0 := by simpa using hj
    subst hj0
    exact le_refl _
  | cons kv t' ih =>
    by_cases h : best.2 < kv.2
    · obtain ⟨i', hi', heq, hmax, hstrict⟩ := ih kv
      refine ⟨i' + 1, by simpa using hi', ?_, ?_, ?_⟩
      · rw [maxCountKey, if_pos h, List.getD_cons_succ]
        exact heq
      · intro j hj
        cases j with
        | zero =>
          rw [List.getD_cons_zero, List.getD_cons_succ]
          exact h.le.trans (by simpa using hmax 0 (by simp))
        | succ j' =>
          rw [List.getD_cons_succ, List.getD_cons_succ]
          exact hmax j' (by simpa using hj)
      · intro j hj
        cases j with
        | zero =>
          rw [List.getD_cons_zero, List.getD_cons_succ]
          exact h.trans_le (by simpa using hmax 0 (by simp))
        | succ j' =>
          rw [List.getD_cons_succ, List.getD_cons_succ]
          exact hstrict j' (by omega)
    · obtain ⟨i', hi', heq, hmax, hstrict⟩ := ih best
      cases i' with
      | zero =>
        refine ⟨0, by simp, ?_, ?_, by omega⟩
        · rw [maxCountKey, if_neg h, List.getD_cons_zero]
          simpa using heq
        · intro j hj
          rw [List.getD_cons_zero]
          cases j with
          | zero => simp
          | succ j' =>
            rw [List.getD_cons_succ]
            cases j' with
            | zero =>
              rw [List.getD_cons_zero]
              have h0 := hmax 0 (by simp)
              rw [List.getD_cons_zero] at h0
              exact not_lt.1 h
            | succ j'' =>
              rw [List.getD_cons_succ]
              have hm := hmax (j'' + 1) (by simp at hj ⊢; omega)
              rw [List.getD_cons_succ, List.getD_cons_zero] at hm
              exact hm
      | succ m =>
        refine ⟨m + 2, by simpa using hi', ?_, ?_, ?_⟩
        · rw [maxCountKey, if_neg h, List.getD_cons_succ, List.getD_cons_succ]
          rw [List.getD_cons_succ] at heq
          exact heq
        · intro j hj
          rw [List.getD_cons_succ, List.getD_cons_succ]
          have target := hmax (m + 1) (by simpa using hi')
          rw [List.getD_cons_succ] at target
          cases j with
          | zero =>
            rw [List.getD_cons_zero]
            have h0 := hmax 0 (by simp)
            rw [List.getD_cons_zero, List.getD_cons_succ] at h0
            exact h0
          | succ j' =>
            rw [List.getD_cons_succ]
            cases j' with
            | zero =>
              rw [List.getD_cons_zero]
              have h0 := hmax 0 (by simp)
              rw [List.getD_cons_zero, List.getD_cons_succ] at h0
              exact (not_lt.1 h).trans h0
            | succ j'' =>
              rw [List.getD_cons_succ]
              have hm := hmax (j'' + 1) (by simp at hj ⊢; omega)
              rw [List.getD_cons_succ, List.getD_cons_succ] at hm
              exact hm
        · intro j hj
          rw [List.getD_cons_succ, List.getD_cons_succ]
          cases j with
          | zero =>
            rw [List.getD_cons_zero]
            have h0 := hstrict 0 (by omega)
            rw [List.getD_cons_zero, List.getD_cons_succ] at h0
            exact h0
          | succ j' =>
            rw [List.getD_cons_succ]
            cases j' with
            | zero =>
              rw [List.getD_cons_zero]
              have h0 := hstrict 0 (by omega)
              rw [List.getD_cons_zero, List.getD_cons_succ] at h0
              exact lt_of_le_of_lt (not_lt.1 h) h0
            | succ j'' =>
              rw [List.getD_cons_succ]
              have hm := hstrict (j'' + 1) (by omega)
              rw [List.getD_cons_succ, List.getD_cons_succ] at hm
              exact hm

theorem bumpBreakdown_ne_nil (bd : List (StrokeType × ℕ)) (st : StrokeType) :
    bumpBreakdown bd st ≠ [] := by
  cases bd with
  | nil => simp [bumpBreakdown]
  | cons kv t =>
    obtain ⟨k, v⟩ := kv
    rw [bumpBreakdown]
    by_cases h : k = st <;> simp [h]

theorem foldl_bump_ne_nil (laps : List SwimLap) :
    ∀ (bd : List (StrokeType × ℕ)), bd ≠ [] →
      laps.foldl (fun b lap => bumpBreakdown b lap.strokeType) bd ≠ [] := by
  induction laps with
  | nil => intro bd h; simpa using h
  | cons a t ih =>
    intro bd _
    rw [List.foldl_cons]
    exact ih _ (bumpBreakdown_ne_nil bd a.strokeType)

theorem strokeBreakdown_ne_nil (laps : List SwimLap) (h : laps ≠ []) :
    strokeBreakdown laps ≠ [] := by
  cases laps with
  | nil => exact absurd rfl h
  | cons a t =>
    rw [strokeBreakdown, List.foldl_cons]
    exact foldl_bump_ne_nil t _ (bumpBreakdown_ne_nil [] a.strokeType)

theorem bumpBreakdown_keys (bd : List (StrokeType × ℕ)) (st : StrokeType) :
    (bumpBreakdown bd st).map Prod.fst =
      if st ∈ bd.map Prod.fst then bd.map Prod.fst else bd.map Prod.fst ++ [st] := by
  induction bd with
  | nil => simp [bumpBreakdown]
  | cons kv t ih =>
    obtain ⟨k, v⟩ := kv
    rw [bumpBreakdown]
    by_cases h : k = st
    · subst h
      simp
    · rw [if_neg h]
      simp only [List.map_cons, List.mem_cons]
      rw [ih]
      by_cases hmem : st ∈ t.map Prod.fst
      · rw [if_pos hmem, if_pos (Or.inr hmem)]
      · rw [if_neg hmem, if_neg (by rintro (h' | h') <;> [exact h h'.symm; exact hmem h'])]
        simp

theorem breakdown_keys_foldl (laps : List SwimLap) :
    ∀ (bd : List (StrokeType × ℕ)),
      (laps.foldl (fun b lap => bumpBreakdown b lap.strokeType) bd).map Prod.fst =
        (laps.map SwimLap.strokeType).foldl
          (fun acc st => if st ∈ acc then acc else acc ++ [st]) (bd.map Prod.fst) := by
  induction laps with
  | nil => intro bd; rfl
  | cons a t ih =>
    intro bd
    rw [List.foldl_cons, List.map_cons, List.foldl_cons, ih, bumpBreakdown_keys]

theorem strokeBreakdown_keys (laps : List SwimLap) :
    (strokeBreakdown laps).map Prod.fst = firstSeenOrder (laps.map SwimLap.strokeType) := by
  rw [strokeBreakdown, firstSeenOrder, breakdown_keys_foldl]
  rfl

/-- C9: with equal pool lengths the total distance is pool length times lap
count, the average SWOLF is the arithmetic mean of the per-lap SWOLFs, the
breakdown keys are in first-encountered lap order, and the primary stroke
is the breakdown's first maximal-count entry (ties to the first seen). -/
theorem C9_aggregates (r : AnalysisResult) (p : ℤ)
    (hne : r.laps ≠ [])
    (hp : ∀ lap ∈ r.laps, lap.poolLengthM = p) :
    r.totalDistanceM = p * (r.totalLaps : ℤ) ∧
    r.avgSwolf = ((r.laps.map SwimLap.swolf).sum : ℚ) / (r.totalLaps : ℚ) ∧
    (strokeBreakdown r.laps).map Prod.fst =
      firstSeenOrder (r.laps.map SwimLap.strokeType) ∧
    ∃ i, i < (strokeBreakdown r.laps).length ∧
      r.primaryStroke = ((strokeBreakdown r.laps).getD i (.unknown, 0)).1 ∧
      (∀ j, j < (strokeBreakdown r.laps).length →
        ((strokeBreakdown r.laps).getD j (.unknown, 0)).2 ≤
          ((strokeBreakdown r.laps).getD i (.unknown, 0)).2) ∧
      (∀ j, j < i →
        ((strokeBreakdown r.laps).getD j (.unknown, 0)).2 <
          ((strokeBreakdown r.laps).getD i (.unknown, 0)).2) := by
  refine ⟨?_, ?_, strokeBreakdown_keys r.laps, ?_⟩
  · rw [AnalysisResult.totalDistanceM, AnalysisResult.totalLaps]
    exact sum_distance r.laps p hp
  · rw [AnalysisResult.avgSwolf, AnalysisResult.totalLaps]
    cases hl : r.laps with
    | nil => exact absurd hl hne
    | cons a t => rfl
  · rw [AnalysisResult.primaryStroke]
    cases hbd : strokeBreakdown r.laps with
    | nil => exact absurd hbd (strokeBreakdown_ne_nil r.laps hne)
    | cons kv t =>
      obtain ⟨i, hi, heq, hmax, hstrict⟩ := maxCountKey_spec t kv
      exact ⟨i, hi, congrArg Prod.fst heq, hmax, hstrict⟩

/-- Two laps in a 25 m pool, freestyle then backstroke: a count tie broken
in favour of the first-seen style. -/
def resultTwoLaps : AnalysisResult :=
  { sessionId := 0, poolLengthM := 25,
    laps := [
      { lapNumber := 1, startIdx := 0, endIdx := 600, strokeType := .freestyle,
        strokeCount := 18, durationSec := 20, poolLengthM := 25 },
      { lapNumber := 2, startIdx := 750, endIdx := 1410, strokeType := .backstroke,
        strokeCount := 20, durationSec := 22, poolLengthM := 25 }] }

/-- C9 witness: the distance aggregate of the theorem at a concrete
two-lap result. -/
theorem C9_witness : resultTwoLaps.totalDistanceM = 25 * (resultTwoLaps.totalLaps : ℤ) :=
  (C9_aggregates resultTwoLaps 25 (by decide) (by decide)).1

theorem lmAux_length {α : Type*} [LinearOrderedField α] (x : List α) (iMax : ℕ) :
    ∀ (fuel i : ℕ), (lmAux x iMax fuel i).length ≤ fuel := by
  intro fuel
  induction fuel with
  | zero => intro i; simp [lmAux]
  | succ f ih =>
    intro i
    simp only [lmAux]
    by_cases h1 : i < iMax
    · rw [if_pos h1]
      by_cases h2 : x.getD (i - 1) 0 < x.getD i 0
      · rw [if_pos h2]
        by_cases h3 :
            x.getD (plateauEnd x iMax (x.getD i 0) x.length (i + 1)) 0 < x.getD i 0
        · rw [if_pos h3]
          simpa using Nat.succ_le_succ (ih _)
        · rw [if_neg h3]
          exact (ih _).trans (Nat.le_succ f)
      · rw [if_neg h2]
        exact (ih _).trans (Nat.le_succ f)
    · rw [if_neg h1]
      simp

theorem localMaxima_length {α : Type*} [LinearOrderedField α] (x : List α) :
    (localMaxima x).length ≤ x.length :=
  lmAux_length x (x.length - 1) x.length 1

theorem selectByDistance_length {α : Type*} [LinearOrderedField α]
    (x : List α) (peaks : List ℕ) (d : ℕ) :
    (selectByDistance x peaks d).length ≤ peaks.length := by
  rw [selectByDistance]
  simp only [List.length_map]
  refine (List.length_filter_le _ _).trans ?_
  rw [List.length_zip]
  exact Nat.min_le_left _ _

theorem findPeaks_length {α : Type*} [LinearOrderedField α] (x : List α) (d : ℕ) :
    (findPeaks x d).length ≤ x.length :=
  (selectByDistance_length x (localMaxima x) d).trans (localMaxima_length x)

theorem axisSignal_length {α : Type*} (lap : List (α × α × α)) (st : StrokeType) :
    (axisSignal lap st).length = lap.length := by
  rw [axisSignal]
  split <;> rw [List.length_map]

theorem countStrokes_nonneg {α : Type*} [LinearOrderedField α] (fs : ℚ)
    (lap : List (α × α × α)) (st : StrokeType) : 0 ≤ countStrokes fs lap st := by
  rw [countStrokes]
  split
  · exact le_refl 0
  · split
    · exact Int.natCast_nonneg _
    · exact Int.natCast_nonneg _

theorem countStrokes_le_length {α : Type*} [LinearOrderedField α] (fs : ℚ)
    (lap : List (α × α × α)) (st : StrokeType) :
    countStrokes fs lap st ≤ (lap.length : ℤ) := by
  rw [countStrokes]
  split
  · exact Int.natCast_nonneg _
  · have hs : ∀ (s : List α), s.length = lap.length →
        ∀ d, ((findPeaks s d).length : ℤ) ≤ (lap.length : ℤ) := by
      intro s hsl d
      exact_mod_cast hsl ▸ findPeaks_length s d
    split
    · exact hs _ (by rw [List.length_map, axisSignal_length]) _
    · rw [Nat.cast_max]
      refine max_le (hs _ (by rw [List.length_map, axisSignal_length]) _) ?_
      exact hs _ (by rw [List.length_map, List.length_map, axisSignal_length]) _

theorem argmaxAux_lt (l : List ℝ) :
    ∀ (i bi : ℕ) (bv : ℝ), bi < i → argmaxAux l i bi bv < i + l.length := by
  induction l with
  | nil => intro i bi bv h; simpa [argmaxAux] using h.trans_le (Nat.le_add_right i 0)
  | cons a t ih =>
    intro i bi bv h
    rw [argmaxAux]
    split
    · have h2 := ih (i + 1) i a (Nat.lt_succ_self i)
      simp only [List.length_cons]
      omega
    · have h2 := ih (i + 1) bi bv (h.trans (Nat.lt_succ_self i))
      simp only [List.length_cons]
      omega

theorem argmaxIdx_lt (l : List ℝ) (h : l ≠ []) : argmaxIdx l < l.length := by
  cases l with
  | nil => exact absurd rfl h
  | cons a t =>
    rw [argmaxIdx]
    have h2 := argmaxAux_lt t 1 0 a Nat.one_pos
    simp only [List.length_cons]
    omega

theorem positiveFreqs_length (n : ℕ) (fs : ℚ) :
    (positiveFreqs n fs).length = numPosFreq n := by
  rw [positiveFreqs, List.length_map, List.length_range']

theorem positiveFreqs_getD (n : ℕ) (fs : ℚ) (k : ℕ) (hk : k < numPosFreq n) :
    (positiveFreqs n fs).getD k 0 = ((k + 1 : ℕ) : ℚ) * fs / n := by
  have hlen : k < (positiveFreqs n fs).length := by
    rw [positiveFreqs_length]
    exact hk
  rw [List.getD_eq_getElem _ _ hlen]
  simp only [positiveFreqs, List.getElem_map, List.getElem_range']
  push_cast
  ring

theorem dftMags_length (n : ℕ) (x : List ℝ) : (dftMags n x).length = numPosFreq n := by
  rw [dftMags, List.length_map, List.length_range']

theorem pyInt_natCast (m : ℕ) : pyInt ((m : ℕ) : ℚ) = (m : ℤ) := by
  rw [pyInt, if_neg (not_lt.2 (Nat.cast_nonneg m))]
  exact_mod_cast Int.floor_natCast m

theorem pyInt_le_of_le {q : ℚ} {m : ℤ} (h : q ≤ (m : ℚ)) : pyInt q ≤ m := by
  rw [pyInt]
  split
  · exact Int.ceil_le.2 h
  · exact (Int.floor_le_floor h).trans (by simp)

/-- The dominant-frequency estimate: the selected bin's frequency times the
lap duration is exactly the bin number, which is below the bin count and so
below the lap length. -/
theorem fft_main_le (fs : ℚ) (hfs : 0 < fs) (n : ℕ) (hn : 30 ≤ n)
    (idx : ℕ) (hidx : idx < numPosFreq n) :
    pyInt ((positiveFreqs n fs).getD idx 0 * ((n : ℚ) / fs)) ≤ (n : ℤ) := by
  rw [positiveFreqs_getD n fs idx hidx]
  have hn0 : ((n : ℕ) : ℚ) ≠ 0 := by
    have : 0 < n := by omega
    exact_mod_cast this.ne'
  have hprod : ((idx + 1 : ℕ) : ℚ) * fs / n * ((n : ℚ) / fs) = ((idx + 1 : ℕ) : ℚ) := by
    field_simp
  rw [hprod, pyInt_natCast]
  have : idx + 1 ≤ n := by
    rw [numPosFreq] at hidx
    omega
  exact_mod_cast this

theorem countStrokesFft_le_length (fs : ℚ) (hfs : 0 < fs)
    (lap : List (ℚ × ℚ × ℚ)) (st : StrokeType) :
    countStrokesFft fs lap st ≤ (lap.length : ℤ) := by
  by_cases h30 : lap.length < 30
  · rw [countStrokesFft, if_pos h30]
    exact countStrokes_le_length fs lap st
  · have hn : 30 ≤ lap.length := not_lt.1 h30
    have hpos : 0 < numPosFreq lap.length := by
      rw [numPosFreq]
      omega
    simp only [countStrokesFft, h30, if_false]
    split
    · exact Int.natCast_nonneg _
    · refine fft_main_le fs hfs lap.length hn _ ?_
      refine lt_of_lt_of_le (argmaxIdx_lt _ ?_) (le_of_eq ?_)
      · refine List.ne_nil_of_length_pos ?_
        simp only [List.length_map, List.length_zip, dftMags_length,
          positiveFreqs_length, Nat.min_self]
        exact hpos
      · simp only [List.length_map, List.length_zip, dftMags_length,
          positiveFreqs_length, Nat.min_self]

/-- C7 (amended): the hybrid count is a nonnegative integer and never
exceeds the lap's sample count.  (The claimed bound `T × max_freq_hz` fails
— see the counterexample — because the minimum peak distance is truncated
to whole samples and peaks may sit exactly one minimum distance apart.) -/
theorem C7_hybrid_bounds (fs : ℚ) (lap : List (ℚ × ℚ × ℚ)) (st : StrokeType)
    (hfs : 0 < fs) :
    0 ≤ hybridCount fs lap st ∧ hybridCount fs lap st ≤ (lap.length : ℤ) := by
  constructor
  · simp only [hybridCount]
    exact le_max_left 0 _
  · simp only [hybridCount]
    refine max_le (Int.natCast_nonneg _) ?_
    set w : ℚ := if (lap.length : ℚ) / fs < 15 then 0.8
      else if (lap.length : ℚ) / fs < 30 then 0.6 else 0.4 with hw
    have hw0 : 0 ≤ w := by
      rw [hw]
      split
      · norm_num
      · split <;> norm_num
    have hw1 : w ≤ 1 := by
      rw [hw]
      split
      · norm_num
      · split <;> norm_num
    have hp : (countStrokes fs lap st : ℚ) ≤ ((lap.length : ℤ) : ℚ) := by
      exact_mod_cast countStrokes_le_length fs lap st
    have hf : (countStrokesFft fs lap st : ℚ) ≤ ((lap.length : ℤ) : ℚ) := by
      exact_mod_cast countStrokesFft_le_length fs hfs lap st
    refine pyInt_le_of_le ?_
    have hsum : w * (countStrokes fs lap st : ℚ) + (1 - w) * (countStrokesFft fs lap st : ℚ) ≤
        w * ((lap.length : ℤ) : ℚ) + (1 - w) * ((lap.length : ℤ) : ℚ) := by
      have h1 : w * (countStrokes fs lap st : ℚ) ≤ w * ((lap.length : ℤ) : ℚ) :=
        mul_le_mul_of_nonneg_left hp hw0
      have h2 : (1 - w) * (countStrokesFft fs lap st : ℚ) ≤ (1 - w) * ((lap.length : ℤ) : ℚ) :=
        mul_le_mul_of_nonneg_left hf (by linarith)
      linarith
    calc w * (countStrokes fs lap st : ℚ) + (1 - w) * (countStrokesFft fs lap st : ℚ)
        ≤ w * ((lap.length : ℤ) : ℚ) + (1 - w) * ((lap.length : ℤ) : ℚ) := hsum
      _ = (((lap.length : ℕ) : ℤ) : ℚ) := by ring
      _ = (((lap.length : ℤ) : ℚ)) := by norm_cast

/-- The 23-sample lap with two Y-axis peaks exactly one minimum peak
distance (20 samples) apart. -/
def lapPeaks : List (ℚ × ℚ × ℚ) :=
  (List.range 23).map fun i => (0, if i = 1 ∨ i = 21 then 1 else 0, 0)

/-- C7 counterexample: for this freestyle lap the hybrid count is 2 while
`T × max_freq_hz = (23/30) × 1.5 = 1.15`, so the claimed bound does not
hold. -/
theorem C7_counterexample :
    hybridCount 30 lapPeaks .freestyle = 2 ∧
    ¬ ((hybridCount 30 lapPeaks .freestyle : ℚ) ≤
        ((lapPeaks.length : ℚ) / 30) * (freqRange .freestyle).2) := by
  decide

/-- C7 witness: the bounds of the theorem at a concrete short lap. -/
theorem C7_witness :
    0 ≤ hybridCount 30 lapTiny .unknown ∧
      hybridCount 30 lapTiny .unknown ≤ (lapTiny.length : ℤ) :=
  C7_hybrid_bounds 30 lapTiny .unknown (by norm_num)

end Aqua
